import Mathlib

/-!
Shallow embedding of the `ConversationMemory` class from
`mcp-ollama-client.js` (the same class is duplicated verbatim in the
demo script).  The class keeps a bounded list of chat messages, folds
evicted messages into a running textual `summary`, and renders the
current state as a single context string.

Modelling notes:
* a JS message object `{role, content, timestamp}` becomes the
  structure `Message`; the timestamp is threaded in as an explicit
  argument of `addMessage` (the source reads the wall clock there);
* `Array.prototype.splice(0, n)` both removes and returns the first
  `n` elements, so eviction is `take`/`drop` at the same index;
* `String.prototype.includes(sub)` is contiguous-substring
  containment, embedded as `jsIncludes`;
* methods that assign no field of `this` (`getContextString`,
  `getHistory`) additionally get a method-form embedding returning
  `result × receiver` so that frame properties can be stated.
-/

structure Message where
  role : String
  content : String
  timestamp : String
deriving Repr, DecidableEq

structure ConversationMemory where
  messages : List Message
  maxMessages : Nat
  summary : String
deriving Repr, DecidableEq

/-- The constructor `constructor(maxMessages = 20)`. -/
def mkMemory (maxMessages : Nat := 20) : ConversationMemory :=
  { messages := [], maxMessages := maxMessages, summary := "" }

/-- JS `s.includes(sub)`: `sub` occurs as a contiguous substring of `s`. -/
def jsIncludes (s sub : String) : Bool :=
  decide (sub.data <:+: s.data)

/-- The filter callback inside `updateSummary`:
`msg.content.includes('created') || msg.content.includes('scheduled') ||
 msg.content.includes('deleted') || msg.content.includes('updated')`. -/
def matchesKeyword (msg : Message) : Bool :=
  jsIncludes msg.content "created" || jsIncludes msg.content "scheduled" ||
  jsIncludes msg.content "deleted" || jsIncludes msg.content "updated"

/-- `updateSummary(oldMessages)`, as a function of the current summary. -/
def updateSummary (summary : String) (oldMessages : List Message) : String :=
  if oldMessages.length > 0 then
    let taskActions := oldMessages.filter matchesKeyword
    if taskActions.length > 0 then
      summary ++ ("\nPrevious session: "
        ++ String.intercalate "; " (taskActions.map Message.content) ++ ".")
    else
      summary
  else
    summary

/-- `addMessage(role, content)`: push the new message, then, if the list
exceeds `maxMessages`, splice off the oldest surplus messages and fold
them into the summary. -/
def addMessage (m : ConversationMemory) (role content timestamp : String) :
    ConversationMemory :=
  let messages := m.messages ++ [{ role := role, content := content, timestamp := timestamp }]
  if messages.length > m.maxMessages then
    let oldMessages := messages.take (messages.length - m.maxMessages)
    { m with
      messages := messages.drop (messages.length - m.maxMessages),
      summary := updateSummary m.summary oldMessages }
  else
    { m with messages := messages }

/-- `getContextString()`: an optional summary block, then an optional
recent-conversation block built with `forEach` string appends. -/
def getContextString (m : ConversationMemory) : String :=
  let context : String := ""
  let context :=
    if m.summary = "" then context
    else context ++ ("Summary of earlier conversation: " ++ m.summary ++ "\n\n")
  if m.messages.length > 0 then
    m.messages.foldl (fun ctx msg => ctx ++ (msg.role ++ ": " ++ msg.content ++ "\n"))
      (context ++ "Recent conversation:\n")
  else
    context

/-- `clear()`. -/
def clear (m : ConversationMemory) : ConversationMemory :=
  { m with messages := [], summary := "" }

/-- The object literal returned by `getHistory()`. -/
structure HistoryView where
  messages : List Message
  summary : String
  totalMessages : Nat
deriving Repr, DecidableEq

/-- `getHistory()`. -/
def getHistory (m : ConversationMemory) : HistoryView :=
  { messages := m.messages, summary := m.summary, totalMessages := m.messages.length }

/-- Method-form embedding of `getContextString`: a JS method receives the
object and may reassign its fields; this body only reads `this.summary`
and `this.messages` and writes the local `context`, so the receiver
comes back unchanged. -/
def getContextStringM (m : ConversationMemory) : String × ConversationMemory :=
  (getContextString m, m)

/-- Method-form embedding of `getHistory` (no field of `this` is
assigned in the body). -/
def getHistoryM (m : ConversationMemory) : HistoryView × ConversationMemory :=
  (getHistory m, m)

/-- A sequence of `addMessage` calls, oldest first. -/
def runRecords (m : ConversationMemory) (calls : List Message) : ConversationMemory :=
  calls.foldl (fun acc c => addMessage acc c.role c.content c.timestamp) m

/-- Spec-side reading of "contains the substring": `sub` occurs inside
`s`, i.e. `s` splits as `pre ++ sub ++ post`. -/
def ContainsSubstring (s sub : String) : Prop :=
  ∃ pre post : String, s = pre ++ sub ++ post

/-- Concatenation of a rendered line per message; used to state the
shape of `getContextString`'s `forEach` loop. -/
def joinMap (f : Message → String) : List Message → String
  | [] => ""
  | msg :: rest => f msg ++ joinMap f rest

/-! ### Helper lemmas about single steps -/

theorem addMessage_messages (m : ConversationMemory) (r c t : String) :
    (addMessage m r c t).messages
      = (m.messages ++ [Message.mk r c t]).drop
          ((m.messages.length + 1) - m.maxMessages) := by
  unfold addMessage
  by_cases h : m.messages.length + 1 > m.maxMessages
  · simp only [List.length_append, List.length_cons, List.length_nil, Nat.zero_add]
    rw [if_pos h]
  · simp only [List.length_append, List.length_cons, List.length_nil, Nat.zero_add]
    rw [if_neg h]
    have h0 : m.messages.length + 1 - m.maxMessages = 0 := by omega
    rw [h0, List.drop_zero]

theorem addMessage_summary (m : ConversationMemory) (r c t : String) :
    (addMessage m r c t).summary
      = if m.messages.length + 1 > m.maxMessages then
          updateSummary m.summary
            ((m.messages ++ [Message.mk r c t]).take
              ((m.messages.length + 1) - m.maxMessages))
        else m.summary := by
  unfold addMessage
  by_cases h : m.messages.length + 1 > m.maxMessages
  · simp only [List.length_append, List.length_cons, List.length_nil, Nat.zero_add]
    rw [if_pos h, if_pos h]
  · simp only [List.length_append, List.length_cons, List.length_nil, Nat.zero_add]
    rw [if_neg h, if_neg h]

theorem addMessage_maxMessages (m : ConversationMemory) (r c t : String) :
    (addMessage m r c t).maxMessages = m.maxMessages := by
  unfold addMessage
  by_cases h : (m.messages ++ [Message.mk r c t]).length > m.maxMessages
  · rw [if_pos h]
  · rw [if_neg h]

theorem addMessage_length (m : ConversationMemory) (r c t : String) :
    (addMessage m r c t).messages.length
      = min (m.messages.length + 1) m.maxMessages := by
  rw [addMessage_messages]
  simp only [List.length_drop, List.length_append, List.length_cons, List.length_nil,
    Nat.zero_add]
  omega

/-- Evicting down to the last `max` elements commutes with appending
later elements and evicting again: staged front-dropping ends at the
same retained suffix as one final front-drop. -/
theorem drop_stage {α : Type} (Q A : List α) (n max : Nat) (hn : Q.length = n) :
    ((Q.drop (n - max)) ++ A).drop ((min n max + A.length) - max)
      = (Q ++ A).drop ((n + A.length) - max) := by
  subst hn
  rw [List.drop_append_eq_append_drop, List.drop_append_eq_append_drop,
    List.drop_drop]
  rcases le_or_lt Q.length max with h | h
  · have h1 : Q.length - max = 0 := by omega
    have h2 : min Q.length max = Q.length := by omega
    rw [h1, h2, List.drop_zero, Nat.zero_add]
  · have h2 : min Q.length max = max := by omega
    rw [h2, List.length_drop]
    have e1 : Q.length - max + (max + A.length - max) = Q.length + A.length - max := by
      omega
    have e2 : max + A.length - max - (Q.length - (Q.length - max))
        = Q.length + A.length - max - Q.length := by omega
    rw [e1, e2]

theorem runRecords_nil (m : ConversationMemory) : runRecords m [] = m := rfl

theorem runRecords_cons (m : ConversationMemory) (c : Message) (cs : List Message) :
    runRecords m (c :: cs) = runRecords (addMessage m c.role c.content c.timestamp) cs := rfl

theorem runRecords_concat (m : ConversationMemory) (cs : List Message) (c : Message) :
    runRecords m (cs ++ [c]) = addMessage (runRecords m cs) c.role c.content c.timestamp := by
  simp [runRecords, List.foldl_append]

theorem runRecords_maxMessages (cs : List Message) :
    ∀ m : ConversationMemory, (runRecords m cs).maxMessages = m.maxMessages := by
  induction cs with
  | nil => intro m; rfl
  | cons c cs ih =>
    intro m
    rw [runRecords_cons, ih, addMessage_maxMessages]

/-- After any run, the retained messages are the final segment of
start-state messages followed by all recorded messages, front-dropped
to the capacity. -/
theorem runRecords_messages (cs : List Message) :
    ∀ m : ConversationMemory, m.messages.length ≤ m.maxMessages →
      (runRecords m cs).messages
        = (m.messages ++ cs).drop ((m.messages.length + cs.length) - m.maxMessages) := by
  induction cs with
  | nil =>
    intro m h
    have h0 : m.messages.length + ([] : List Message).length - m.maxMessages = 0 := by
      simp only [List.length_nil]; omega
    rw [runRecords_nil, h0, List.drop_zero, List.append_nil]
  | cons c cs ih =>
    intro m h
    rw [runRecords_cons]
    have hlen : (addMessage m c.role c.content c.timestamp).messages.length
        ≤ (addMessage m c.role c.content c.timestamp).maxMessages := by
      rw [addMessage_length, addMessage_maxMessages]; omega
    rw [ih _ hlen, addMessage_length, addMessage_maxMessages, addMessage_messages]
    have hmk : (Message.mk c.role c.content c.timestamp) = c := rfl
    rw [hmk]
    have hstage := drop_stage (m.messages ++ [c]) cs (m.messages.length + 1)
      m.maxMessages (by simp)
    rw [hstage]
    have hassoc : (m.messages ++ [c]) ++ cs = m.messages ++ (c :: cs) := by simp
    rw [hassoc]
    have hidx : m.messages.length + 1 + cs.length = m.messages.length + (c :: cs).length := by
      simp only [List.length_cons]; omega
    rw [hidx]

/-- The `forEach` string-building loop appends one rendered line per
message to the accumulator. -/
theorem foldl_append_lines (f : Message → String) (l : List Message) :
    ∀ init : String,
      l.foldl (fun ctx msg => ctx ++ f msg) init = init ++ joinMap f l := by
  induction l with
  | nil =>
    intro init
    rw [List.foldl_nil, joinMap, String.append_empty]
  | cons x xs ih =>
    intro init
    rw [List.foldl_cons, ih, joinMap, String.append_assoc]

/-- `updateSummary` never rewrites the existing summary: it returns it
either unchanged or with one appended segment. -/
theorem updateSummary_append (s : String) (batch : List Message) :
    ∃ suffix : String, updateSummary s batch = s ++ suffix := by
  unfold updateSummary
  by_cases h1 : batch.length > 0
  · rw [if_pos h1]
    by_cases h2 : (batch.filter matchesKeyword).length > 0
    · rw [if_pos h2]
      exact ⟨_, rfl⟩
    · rw [if_neg h2]
      exact ⟨"", (String.append_empty s).symm⟩
  · rw [if_neg h1]
    exact ⟨"", (String.append_empty s).symm⟩

/-- `jsIncludes` agrees with the declarative substring relation. -/
theorem jsIncludes_iff (s sub : String) :
    jsIncludes s sub = true ↔ ContainsSubstring s sub := by
  unfold jsIncludes ContainsSubstring
  rw [decide_eq_true_iff]
  constructor
  · rintro ⟨l, r, hlr⟩
    refine ⟨⟨l⟩, ⟨r⟩, ?_⟩
    apply String.ext
    simp only [String.data_append]
    exact hlr.symm
  · rintro ⟨pre, post, hpp⟩
    refine ⟨pre.data, post.data, ?_⟩
    rw [hpp]
    simp only [String.data_append]

/-! ### Claims -/

/-- C1: for every sequence of `record` calls on a window constructed
with a positive `maxTurns`, after each call the number of retained
turns is at most `maxTurns`. -/
theorem c1_totalTurns_le_maxTurns (maxTurns : Nat) (hpos : 0 < maxTurns)
    (calls : List Message) (i : Nat) (hi : i < calls.length) :
    (runRecords (mkMemory maxTurns) (calls.take (i + 1))).messages.length ≤ maxTurns := by
  rcases List.eq_nil_or_concat (calls.take (i + 1)) with hnil | ⟨L, b, hconcat⟩
  · exfalso
    have : (calls.take (i + 1)).length = 0 := by rw [hnil]; rfl
    rw [List.length_take] at this
    omega
  · rw [hconcat, List.concat_eq_append, runRecords_concat, addMessage_length,
      runRecords_maxMessages]
    have : (mkMemory maxTurns).maxMessages = maxTurns := rfl
    rw [this]
    omega

theorem c1_witness :
    (runRecords (mkMemory 2)
      (([⟨"user", "a", "t1"⟩, ⟨"assistant", "b", "t2"⟩, ⟨"user", "c", "t3"⟩] : List Message).take
        (2 + 1))).messages.length ≤ 2 :=
  c1_totalTurns_le_maxTurns 2 (by decide) _ 2 (by decide)

/-- C2: the retained turns are exactly the most recent `maxTurns` (or
fewer) of all recorded turns in original order, and when an insertion
overflows the limit, exactly the oldest surplus turns are passed (as
one batch) to the summarizer. -/
theorem c2_retained_most_recent :
    (∀ (maxTurns : Nat) (calls : List Message),
        (runRecords (mkMemory maxTurns) calls).messages
          = calls.drop (calls.length - maxTurns))
    ∧ (∀ (m : ConversationMemory) (r c t : String),
        m.maxMessages < m.messages.length + 1 →
        (addMessage m r c t).summary
          = updateSummary m.summary
              ((m.messages ++ [Message.mk r c t]).take
                ((m.messages.length + 1) - m.maxMessages))) := by
  constructor
  · intro maxTurns calls
    have h := runRecords_messages calls (mkMemory maxTurns) (by simp [mkMemory])
    simpa [mkMemory] using h
  · intro m r c t h
    rw [addMessage_summary, if_pos h]

theorem c2_witness :
    ((runRecords (mkMemory 1) ([⟨"user", "a", "t1"⟩, ⟨"user", "b", "t2"⟩] : List Message)).messages
        = ([⟨"user", "a", "t1"⟩, ⟨"user", "b", "t2"⟩] : List Message).drop
            (([⟨"user", "a", "t1"⟩, ⟨"user", "b", "t2"⟩] : List Message).length - 1))
    ∧ ((addMessage ⟨[⟨"user", "x", "t0"⟩], 1, ""⟩ "user" "created it" "t1").summary
        = updateSummary ""
            ((([⟨"user", "x", "t0"⟩] : List Message) ++ [Message.mk "user" "created it" "t1"]).take
              ((([⟨"user", "x", "t0"⟩] : List Message).length + 1) - 1))) :=
  ⟨c2_retained_most_recent.1 1 _,
   c2_retained_most_recent.2 ⟨[⟨"user", "x", "t0"⟩], 1, ""⟩ "user" "created it" "t1" (by decide)⟩

/-- C3: the concrete `maxTurns = 3` scenario: after the four listed
calls the retained count is 3, the evicted batch is the single oldest
turn, the summary stays empty and the retained turns are the last 3 in
order; in the variant where the evicted turn says "created the
meeting", the summary becomes that non-empty keyword line. -/
theorem c3_concrete_scenario :
    (getHistory (runRecords (mkMemory 3)
        [⟨"user", "Schedule a meeting", "t1"⟩, ⟨"assistant", "created the meeting", "t2"⟩,
         ⟨"user", "show tasks", "t3"⟩, ⟨"assistant", "found 1 task", "t4"⟩])).totalMessages = 3
    ∧ ((runRecords (mkMemory 3)
        [⟨"user", "Schedule a meeting", "t1"⟩, ⟨"assistant", "created the meeting", "t2"⟩,
         ⟨"user", "show tasks", "t3"⟩]).messages
          ++ [Message.mk "assistant" "found 1 task" "t4"]).take ((3 + 1) - 3)
        = [⟨"user", "Schedule a meeting", "t1"⟩]
    ∧ (runRecords (mkMemory 3)
        [⟨"user", "Schedule a meeting", "t1"⟩, ⟨"assistant", "created the meeting", "t2"⟩,
         ⟨"user", "show tasks", "t3"⟩, ⟨"assistant", "found 1 task", "t4"⟩]).summary = ""
    ∧ (runRecords (mkMemory 3)
        [⟨"user", "Schedule a meeting", "t1"⟩, ⟨"assistant", "created the meeting", "t2"⟩,
         ⟨"user", "show tasks", "t3"⟩, ⟨"assistant", "found 1 task", "t4"⟩]).messages
        = [⟨"assistant", "created the meeting", "t2"⟩, ⟨"user", "show tasks", "t3"⟩,
           ⟨"assistant", "found 1 task", "t4"⟩]
    ∧ (runRecords (mkMemory 3)
        [⟨"assistant", "created the meeting", "t1"⟩, ⟨"user", "Schedule a meeting", "t2"⟩,
         ⟨"user", "show tasks", "t3"⟩, ⟨"assistant", "found 1 task", "t4"⟩]).summary
        = "\nPrevious session: created the meeting."
    ∧ ContainsSubstring (runRecords (mkMemory 3)
        [⟨"assistant", "created the meeting", "t1"⟩, ⟨"user", "Schedule a meeting", "t2"⟩,
         ⟨"user", "show tasks", "t3"⟩, ⟨"assistant", "found 1 task", "t4"⟩]).summary
        "created the meeting" := by
  refine ⟨by decide, by decide, by decide, by decide, by decide, ?_⟩
  exact (jsIncludes_iff _ _).mp (by decide)

/-- C4: an eviction batch with no keyword-matching turn leaves the
summary unchanged; a batch with at least one match appends exactly one
segment: the fixed lead-in, the matching contents joined by the fixed
separator, and the terminator. -/
theorem c4_summarize_contribution (s : String) (batch : List Message) :
    ((∀ msg ∈ batch, matchesKeyword msg = false) → updateSummary s batch = s)
    ∧ ((∃ msg ∈ batch, matchesKeyword msg = true) →
        updateSummary s batch
          = s ++ ("\nPrevious session: "
              ++ String.intercalate "; " ((batch.filter matchesKeyword).map Message.content)
              ++ ".")) := by
  constructor
  · intro h
    unfold updateSummary
    by_cases h1 : batch.length > 0
    · rw [if_pos h1]
      have hfil : batch.filter matchesKeyword = [] := by
        rw [List.filter_eq_nil_iff]
        intro a ha
        simp [h a ha]
      rw [if_neg]
      rw [hfil]
      simp
    · rw [if_neg h1]
  · rintro ⟨msg, hmem, hmatch⟩
    unfold updateSummary
    have h1 : batch.length > 0 := by
      cases batch with
      | nil => cases hmem
      | cons a l => simp
    have h2 : (batch.filter matchesKeyword).length > 0 := by
      have : msg ∈ batch.filter matchesKeyword := List.mem_filter.mpr ⟨hmem, hmatch⟩
      exact List.length_pos.mpr (List.ne_nil_of_mem this)
    rw [if_pos h1, if_pos h2]

theorem c4_witness :
    updateSummary "S" ([⟨"user", "hello", "t"⟩] : List Message) = "S"
    ∧ updateSummary "S" ([⟨"assistant", "created X", "t"⟩] : List Message)
        = "S" ++ ("\nPrevious session: "
            ++ String.intercalate "; "
                ((([⟨"assistant", "created X", "t"⟩] : List Message).filter matchesKeyword).map
                  Message.content)
            ++ ".") :=
  ⟨(c4_summarize_contribution "S" _).1 (by decide),
   (c4_summarize_contribution "S" _).2 (by decide)⟩

theorem strEmptyAppend (s : String) : "" ++ s = s := rfl

/-- C5: when the summary is non-empty, `render` emits the labeled
summary block first, then a blank line, then (when any turn is
retained) the labeled recent-conversation block with one
`role: content` line per retained turn in chronological order. -/
theorem c5_render_layout (m : ConversationMemory) (hsum : ¬ m.summary = "") :
    getContextString m
      = "Summary of earlier conversation: " ++ m.summary ++ "\n\n"
        ++ (if m.messages.length > 0 then
              "Recent conversation:\n"
                ++ joinMap (fun msg => msg.role ++ ": " ++ msg.content ++ "\n") m.messages
            else "") := by
  simp only [getContextString]
  rw [if_neg hsum]
  by_cases hm : m.messages.length > 0
  · rw [if_pos hm, if_pos hm, foldl_append_lines]
    simp only [strEmptyAppend, String.append_assoc]
  · rw [if_neg hm, if_neg hm]
    rw [strEmptyAppend, String.append_empty]

theorem c5_witness :
    getContextString ⟨[⟨"user", "hi", "t1"⟩], 5, "Z"⟩
      = "Summary of earlier conversation: " ++ "Z" ++ "\n\n"
        ++ (if ([⟨"user", "hi", "t1"⟩] : List Message).length > 0 then
              "Recent conversation:\n"
                ++ joinMap (fun msg => msg.role ++ ": " ++ msg.content ++ "\n")
                    [⟨"user", "hi", "t1"⟩]
            else "") :=
  c5_render_layout ⟨[⟨"user", "hi", "t1"⟩], 5, "Z"⟩ (by decide)

/-- C6 counterexample: a `record` call whose role is neither `user` nor
`assistant` does not fail and is not coerced: the turn is accepted and
retained with the role `"system"` stored verbatim, with no
invalid-argument signal anywhere in the state. -/
theorem c6_counterexample :
    (addMessage (mkMemory 3) "system" "hello" "t0").messages
        = [⟨"system", "hello", "t0"⟩]
    ∧ (addMessage (mkMemory 3) "system" "hello" "t0").summary = "" := by
  exact ⟨by decide, by decide⟩

/-- C6 (amended): `record` performs no role validation: for every role
string (including ones outside `{user, assistant}`) the call succeeds
and appends the turn with that role stored verbatim. -/
theorem c6_no_role_validation (m : ConversationMemory) (role content timestamp : String)
    (h : m.messages.length + 1 ≤ m.maxMessages) :
    (addMessage m role content timestamp).messages
      = m.messages ++ [Message.mk role content timestamp] := by
  rw [addMessage_messages]
  have h0 : m.messages.length + 1 - m.maxMessages = 0 := by omega
  rw [h0, List.drop_zero]

theorem c6_witness :
    (addMessage (mkMemory 3) "system" "hi" "t9").messages
      = (mkMemory 3).messages ++ [Message.mk "system" "hi" "t9"] :=
  c6_no_role_validation (mkMemory 3) "system" "hi" "t9" (by decide)

/-- C7: the summary is append-only: each `record` call extends the old
summary (the old value is a prefix of the new one), and so does any
sequence of calls; only `clear` resets, emptying both fields. -/
theorem c7_summary_append_only :
    (∀ (m : ConversationMemory) (r c t : String),
        ∃ suffix : String, (addMessage m r c t).summary = m.summary ++ suffix)
    ∧ (∀ (m : ConversationMemory) (calls : List Message),
        ∃ suffix : String, (runRecords m calls).summary = m.summary ++ suffix)
    ∧ (∀ m : ConversationMemory, (clear m).summary = "" ∧ (clear m).messages = []) := by
  have hstep : ∀ (m : ConversationMemory) (r c t : String),
      ∃ suffix : String, (addMessage m r c t).summary = m.summary ++ suffix := by
    intro m r c t
    rw [addMessage_summary]
    by_cases h : m.messages.length + 1 > m.maxMessages
    · rw [if_pos h]
      exact updateSummary_append _ _
    · rw [if_neg h]
      exact ⟨"", (String.append_empty _).symm⟩
  refine ⟨hstep, ?_, fun m => ⟨rfl, rfl⟩⟩
  intro m calls
  induction calls generalizing m with
  | nil => exact ⟨"", (String.append_empty _).symm⟩
  | cons c cs ih =>
    rw [runRecords_cons]
    obtain ⟨s₂, h₂⟩ := ih (addMessage m c.role c.content c.timestamp)
    obtain ⟨s₁, h₁⟩ := hstep m c.role c.content c.timestamp
    exact ⟨s₁ ++ s₂, by rw [h₂, h₁, String.append_assoc]⟩

/-- C8: `render` on a window with no turns and an empty summary yields
the empty string, and `clear` followed by `render` yields the empty
string from any prior state. -/
theorem c8_render_empty :
    (∀ m : ConversationMemory,
        m.messages = [] → m.summary = "" → getContextString m = "")
    ∧ (∀ m : ConversationMemory, getContextString (clear m) = "") := by
  have h1 : ∀ m : ConversationMemory,
      m.messages = [] → m.summary = "" → getContextString m = "" := by
    intro m hm hs
    simp [getContextString, hm, hs]
  exact ⟨h1, fun m => h1 (clear m) rfl rfl⟩

theorem c8_witness :
    getContextString (mkMemory 20) = ""
    ∧ getContextString (clear ⟨[⟨"user", "hi", "t"⟩], 3, "s"⟩) = "" :=
  ⟨c8_render_empty.1 (mkMemory 20) rfl rfl,
   c8_render_empty.2 ⟨[⟨"user", "hi", "t"⟩], 3, "s"⟩⟩

/-- C9: `render` and `snapshot` are read-only (the receiver comes back
unchanged, with turn list and summary intact), and the snapshot's
`totalTurns` is the count of currently retained turns — after any run
from empty that is `min recorded capacity`, not a lifetime counter. -/
theorem c9_render_snapshot_readonly :
    (∀ m : ConversationMemory,
        (getContextStringM m).2 = m ∧ (getHistoryM m).2 = m
          ∧ (getHistoryM m).1.messages = m.messages
          ∧ (getHistoryM m).1.summary = m.summary)
    ∧ (∀ m : ConversationMemory, (getHistoryM m).1.totalMessages = m.messages.length)
    ∧ (∀ (maxTurns : Nat) (calls : List Message),
        (getHistoryM (runRecords (mkMemory maxTurns) calls)).1.totalMessages
          = min calls.length maxTurns) := by
  refine ⟨fun m => ⟨rfl, rfl, rfl, rfl⟩, fun m => rfl, ?_⟩
  intro maxTurns calls
  show (runRecords (mkMemory maxTurns) calls).messages.length = min calls.length maxTurns
  rw [runRecords_messages calls (mkMemory maxTurns) (by simp [mkMemory])]
  simp only [mkMemory, List.nil_append, List.length_drop, List.length_nil, Nat.zero_add]
  omega

/-- C10: an evicted turn feeds the summary exactly when its content
contains one of the exact lowercase substrings `created`, `scheduled`,
`deleted`, `updated`; the filter ignores the role entirely, so a
matching user turn is included while differently-cased or
present-tense contents match nothing. -/
theorem c10_keyword_filter :
    (∀ msg : Message,
        matchesKeyword msg = true
          ↔ (ContainsSubstring msg.content "created"
              ∨ ContainsSubstring msg.content "scheduled"
              ∨ ContainsSubstring msg.content "deleted"
              ∨ ContainsSubstring msg.content "updated"))
    ∧ (∀ r₁ r₂ content t₁ t₂ : String,
        matchesKeyword ⟨r₁, content, t₁⟩ = matchesKeyword ⟨r₂, content, t₂⟩)
    ∧ matchesKeyword ⟨"user", "I created a task", "t1"⟩ = true
    ∧ matchesKeyword ⟨"assistant", "Schedule a meeting", "t2"⟩ = false
    ∧ matchesKeyword ⟨"assistant", "Created the meeting", "t3"⟩ = false := by
  refine ⟨?_, fun r₁ r₂ content t₁ t₂ => rfl, by decide, by decide, by decide⟩
  intro msg
  unfold matchesKeyword
  simp only [Bool.or_eq_true, jsIncludes_iff]
  tauto

theorem c10_witness :
    matchesKeyword ⟨"user", "I created a task", "t1"⟩ = true :=
  c10_keyword_filter.2.2.1
